import Mathlib

/-!
Shallow embedding of the MxlPy parameter-identification engine
(`src/mxlpy/identify.py`) and the polynomial surrogate trainer
(`src/mxlpy/surrogates/_poly.py`), together with proofs of the
specification's claims about them.

Numeric values (Python floats) are embedded as rationals; the external
collaborators the source consumes (the fit service, the parallel executor,
the distribution sampler, the model object) are embedded from the
specification's contracts for them, as recorded in each doc comment.
-/

namespace MxlPy

/-- Decidable equality of `Except` values, component-wise. -/
instance {ε α : Type} [DecidableEq ε] [DecidableEq α] : DecidableEq (Except ε α)
  | .ok a, .ok b =>
    if h : a = b then .isTrue (by rw [h]) else .isFalse (by simp [h])
  | .ok _, .error _ => .isFalse (by simp)
  | .error _, .ok _ => .isFalse (by simp)
  | .error a, .error b =>
    if h : a = b then .isTrue (by rw [h]) else .isFalse (by simp [h])

/-- A row of named numeric values: one parameter assignment
(a pandas `Series` of parameter values keyed by parameter name). -/
abbrev Row : Type := List (String × ℚ)

/-- The failure conditions observable from the profile-likelihood engine.
`unknownParameter`, `invalidArgument` and `invalidDistribution` are the
specification's named error taxonomy; `numericError` stands for any generic
computational exception escaping from a library call (numpy / pandas). -/
inductive ProfErr : Type where
  | unknownParameter
  | invalidArgument
  | invalidDistribution
  | numericError
deriving DecidableEq

/-- A model: an ordered mapping from parameter name to numeric value.
The simulation capability is irrelevant to every claim (it is consumed
only inside the opaque fit service) and is not represented. -/
structure Model : Type where
  parameters : List (String × ℚ)
deriving DecidableEq

/-- `model.parameters` membership test for a parameter name. -/
def Model.hasParam (m : Model) (k : String) : Bool :=
  m.parameters.any (fun p => p.1 = k)

/-- Read a parameter's current value. -/
def Model.getParam (m : Model) (k : String) : Option ℚ :=
  (m.parameters.find? (fun p => p.1 = k)).map Prod.snd

/-- Modelled from the spec: `Model.update_parameter` (mxlpy/model.py is not
under src/). The spec gives the Model the capability "get/set parameter
value" over "a mapping from parameter name to numeric value", and names the
condition "requested profiling target not present in model" as
`UnknownParameter`; setting an absent name is therefore that failure, while
a present name has its value replaced in place, the order of the mapping
preserved. -/
def Model.update_parameter (m : Model) (name : String) (value : ℚ) :
    Except ProfErr Model :=
  if m.parameters.any (fun p => p.1 = name) then
    .ok ⟨m.parameters.map (fun p => if p.1 = name then (name, value) else p)⟩
  else .error .unknownParameter

/-- A log-normal distribution specification, `LogNormal(np.log ref, sigma)`.
`ref` is the reference value whose natural logarithm is the location; the
logarithm itself is real-valued and plays no role in any claim, so the
specification keeps the reference value. -/
structure LogNormal : Type where
  ref : ℚ
  sigma : ℚ
deriving DecidableEq

/-- A two-dimensional table (a pandas `DataFrame`): named columns, and rows
that are association lists over exactly those column names. -/
structure Table : Type where
  cols : List String
  rows : List Row
deriving DecidableEq

/-- Modelled from the spec: `sample` (mxlpy/distributions.py is not under
src/): "given a mapping from parameter name to a distribution specification
... and a count `n`, produce a table with `n` rows and one column per
parameter, each column independently drawn from its specified
distribution".  The random source is `draw i k`, the value drawn for row
`i` and column `k`.  A negative count is rejected by the underlying random
number generator (numpy refuses negative dimensions) as a generic error;
no engine-level named error is involved. -/
def sample (dists : List (String × LogNormal)) (n : Int)
    (draw : Nat → String → ℚ) : Except ProfErr Table :=
  if n < 0 then .error .numericError
  else .ok ⟨dists.map Prod.fst,
    (List.range n.toNat).map (fun i => dists.map (fun p => (p.1, draw i p.1)))⟩

/-- `df.drop(columns=name)`: remove the named column from a table.  In
`profile_likelihood` the dropped name is always present, because the sample
set's columns are the model's parameter names and the preceding
`update_parameter` has already established membership. -/
def Table.dropColumn (t : Table) (name : String) : Table :=
  ⟨t.cols.filter (fun c => c ≠ name),
   t.rows.map (fun r => r.filter (fun p => p.1 ≠ name))⟩

/-- `df.iterrows()`: the rows of a table keyed by their integer position. -/
def Table.iterrows (t : Table) : List (Nat × Row) :=
  t.rows.enum

/-- The external fit-and-residual service (mxlpy/fit.py is not under src/).
Modelled from the spec: "a fit-and-residual service satisfying
fit(model, initial_guess, data) -> fitted_params,
residual(fitted_params, data, model) -> scalar"; both are opaque
collaborators of the engine. -/
structure FitService (Data : Type) : Type where
  time_course : Model → Row → Data → Row
  residual : Row → Data → Model → ℚ

/-- `_mc_fit_time_course_worker` (src/mxlpy/identify.py): one Monte-Carlo
job — fit the model from the drawn initial guess `p0`, then return the
scalar residual of the fitted parameters against the data. -/
def mc_fit_time_course_worker {Data : Type} (svc : FitService Data)
    (p0 : Row) (model : Model) (data : Data) : ℚ :=
  svc.residual (svc.time_course model p0 data) data model

/-- Modelled from the spec: `parallelise` (mxlpy/parallel.py is not under
src/): "runs a function over a list of inputs across worker
processes/threads, returns ordered results matching input order", one
result per keyed input. -/
def parallelise {α β : Type} (fn : α → β) (inputs : List (Nat × α)) :
    List (Nat × β) :=
  inputs.map (fun p => (p.1, fn p.2))

/-- A parallel executor that executes the jobs in reverse order and
delivers the keyed results in that (reversed) completion order — the mocked
executor of the spec's concurrency test. -/
def parallelise_rev {α β : Type} (fn : α → β) (inputs : List (Nat × α)) :
    List (Nat × β) :=
  inputs.reverse.map (fun p => (p.1, fn p.2))

/-- The assignment `d[k] = v` on a Python `dict`: overwrite in place when
the key already exists (keeping its original position), otherwise append a
new entry at the end. -/
def dictInsert {α : Type} (d : List (ℚ × α)) (k : ℚ) (v : α) :
    List (ℚ × α) :=
  if d.any (fun p => p.1 = k) then
    d.map (fun p => if p.1 = k then (k, v) else p)
  else d ++ [(k, v)]

/-- One row of `pd.DataFrame(res, dtype=float).T.abs().mean(axis=1)`: the
arithmetic mean of the absolute values of the row's entries.  The mean of
an empty row is NaN in pandas, embedded as `none`. -/
def meanAbs (rs : List ℚ) : Option ℚ :=
  if rs.isEmpty then none
  else some ((rs.map (fun r => |r|)).sum / (rs.length : ℚ))

/-- Instrumentation of one engine run, recording the externally observable
activity the specification's claims quantify over: every sample set
generated, every per-candidate input table handed to the parallel
executor, and the total number of fit jobs dispatched. -/
structure ProfTrace : Type where
  sampleSets : List Table
  dispatched : List Table
  fitCalls : Nat
deriving DecidableEq

/-- The outcome of one `profile_likelihood` run: either a named/generic
error, or the ordered error series (candidate value ↦ aggregated error)
together with the final state of the caller's model — paired with the
trace of observable activity up to that point. -/
structure ProfRun : Type where
  result : Except ProfErr (List (ℚ × Option ℚ) × Model)
  trace : ProfTrace
deriving DecidableEq

/-- The outer loop of `profile_likelihood` (src/mxlpy/identify.py, lines
57-65): for each candidate `value` in sequence, mutate the model so that
`parameter_name = value`, drop that column from the (fixed, pre-drawn)
sample set, dispatch one worker job per remaining row through the parallel
executor, and store the residual list under `res[value]`.  State is passed
explicitly: the mutated model, the accumulated `res` dict, and the trace. -/
def profileLoop {Data : Type} (svc : FitService Data) (data : Data)
    (parameter_name : String) (dists : Table) :
    Model → List ℚ → List (ℚ × List ℚ) → ProfTrace →
    (Except ProfErr (List (ℚ × List ℚ) × Model)) × ProfTrace
  | m, [], res, tr => (.ok (res, m), tr)
  | m, value :: rest, res, tr =>
    match m.update_parameter parameter_name value with
    | .error e => (.error e, tr)
    | .ok m' =>
      let tbl := dists.dropColumn parameter_name
      let results := parallelise
        (fun p0 => mc_fit_time_course_worker svc p0 m' data) tbl.iterrows
      profileLoop svc data parameter_name dists m' rest
        (dictInsert res value (results.map Prod.snd))
        ⟨tr.sampleSets, tr.dispatched ++ [tbl],
         tr.fitCalls + tbl.iterrows.length⟩

/-- `profile_likelihood` (src/mxlpy/identify.py, lines 34-68): build a
log-normal specification `LogNormal(np.log(v), sigma=1)` for every model
parameter, draw the full sample set once for the run, then run the
sequential outer loop over the candidate values and aggregate each
candidate's residual list into the mean of absolute values.  The returned
series preserves the `res` dict's key order; the caller's model is left in
its final mutated state. -/
def profile_likelihood {Data : Type} (model : Model) (data : Data)
    (parameter_name : String) (parameter_values : List ℚ) (n_random : Int)
    (svc : FitService Data) (draw : Nat → String → ℚ) : ProfRun :=
  match sample
      (model.parameters.map (fun p => (p.1, LogNormal.mk p.2 1)))
      n_random draw with
  | .error e => ⟨.error e, ⟨[], [], 0⟩⟩
  | .ok parameter_distributions =>
    match profileLoop svc data parameter_name parameter_distributions
        model parameter_values [] ⟨[parameter_distributions], [], 0⟩ with
    | (.error e, tr) => ⟨.error e, tr⟩
    | (.ok (res, m'), tr) =>
      ⟨.ok (res.map (fun p => (p.1, meanAbs p.2)), m'), tr⟩

/-- The outer loop of `profile_likelihood` run with the reverse-order
parallel executor `parallelise_rev` instead of `parallelise`; otherwise
identical to `profileLoop`. -/
def profileLoopRev {Data : Type} (svc : FitService Data) (data : Data)
    (parameter_name : String) (dists : Table) :
    Model → List ℚ → List (ℚ × List ℚ) → ProfTrace →
    (Except ProfErr (List (ℚ × List ℚ) × Model)) × ProfTrace
  | m, [], res, tr => (.ok (res, m), tr)
  | m, value :: rest, res, tr =>
    match m.update_parameter parameter_name value with
    | .error e => (.error e, tr)
    | .ok m' =>
      let tbl := dists.dropColumn parameter_name
      let results := parallelise_rev
        (fun p0 => mc_fit_time_course_worker svc p0 m' data) tbl.iterrows
      profileLoopRev svc data parameter_name dists m' rest
        (dictInsert res value (results.map Prod.snd))
        ⟨tr.sampleSets, tr.dispatched ++ [tbl],
         tr.fitCalls + tbl.iterrows.length⟩

/-- `profile_likelihood` with jobs executed in reverse order by the mocked
executor; identical to `profile_likelihood` except for the executor. -/
def profile_likelihood_rev {Data : Type} (model : Model) (data : Data)
    (parameter_name : String) (parameter_values : List ℚ) (n_random : Int)
    (svc : FitService Data) (draw : Nat → String → ℚ) : ProfRun :=
  match sample
      (model.parameters.map (fun p => (p.1, LogNormal.mk p.2 1)))
      n_random draw with
  | .error e => ⟨.error e, ⟨[], [], 0⟩⟩
  | .ok parameter_distributions =>
    match profileLoopRev svc data parameter_name parameter_distributions
        model parameter_values [] ⟨[parameter_distributions], [], 0⟩ with
    | (.error e, tr) => ⟨.error e, tr⟩
    | (.ok (res, m'), tr) =>
      ⟨.ok (res.map (fun p => (p.1, meanAbs p.2)), m'), tr⟩

/-- A trivial fit service over trivial data, used to run the engine on
concrete inputs: fitting returns the initial guess unchanged and every
residual is zero. -/
def zeroFit : FitService Unit :=
  ⟨fun _ p0 _ => p0, fun _ _ _ => 0⟩

/-- A constant random source for concrete runs. -/
def oneDraw : Nat → String → ℚ := fun _ _ => 1

/-! ### Basic lemmas about the embedded operations -/

lemma any_fst {α : Type} (l : List (String × α)) (k : String) :
    l.any (fun p => p.1 = k) = (l.map Prod.fst).any (fun s => s = k) := by
  induction l with
  | nil => rfl
  | cons p t ih => simp [ih]

lemma any_fst_rat {α : Type} (l : List (ℚ × α)) (k : ℚ) :
    l.any (fun p => p.1 = k) = (l.map Prod.fst).any (fun s => s = k) := by
  induction l with
  | nil => rfl
  | cons p t ih => simp [ih]

lemma update_parameter_ok (m : Model) (name : String) (v : ℚ)
    (h : m.hasParam name = true) :
    m.update_parameter name v =
      .ok ⟨m.parameters.map (fun p => if p.1 = name then (name, v) else p)⟩ := by
  simp only [Model.hasParam] at h
  rw [Model.update_parameter, if_pos h]

lemma update_parameter_keys (m : Model) (name : String) (v : ℚ) (m' : Model)
    (h : m.update_parameter name v = .ok m') :
    m'.parameters.map Prod.fst = m.parameters.map Prod.fst := by
  rw [Model.update_parameter] at h
  split at h
  · cases h
    simp only [List.map_map]
    refine List.map_congr_left (fun p _ => ?_)
    by_cases hp : p.1 = name <;> simp [hp]
  · cases h

lemma update_parameter_hasParam (m : Model) (name : String) (v : ℚ)
    (m' : Model) (h : m.update_parameter name v = .ok m') (k : String) :
    m'.hasParam k = m.hasParam k := by
  rw [Model.hasParam, Model.hasParam, any_fst, any_fst,
    update_parameter_keys m name v m' h]

lemma find_map_update (l : List (String × ℚ)) (name : String) (v : ℚ)
    (h : l.any (fun p => p.1 = name) = true) :
    (l.map (fun p => if p.1 = name then (name, v) else p)).find?
        (fun p => p.1 = name) = some (name, v) := by
  induction l with
  | nil => simp at h
  | cons p t ih =>
    by_cases hp : p.1 = name
    · simp [hp, List.find?]
    · simp only [List.any_cons, Bool.or_eq_true, decide_eq_true_eq] at h
      rcases h with h | h
      · exact absurd h hp
      · simp [hp, List.find?, ih h]

lemma find_map_update_other (l : List (String × ℚ)) (name : String) (v : ℚ)
    (k : String) (hk : k ≠ name) :
    (l.map (fun p => if p.1 = name then (name, v) else p)).find?
        (fun p => p.1 = k) = l.find? (fun p => p.1 = k) := by
  induction l with
  | nil => rfl
  | cons p t ih =>
    simp only [List.map_cons]
    by_cases hp : p.1 = name
    · have hnk : ¬ (name = k) := fun hc => hk hc.symm
      have hpk : ¬ (p.1 = k) := by rw [hp]; exact hnk
      rw [if_pos hp]
      rw [List.find?_cons_of_neg, List.find?_cons_of_neg]
      · exact ih
      · simpa using hpk
      · simpa using hnk
    · rw [if_neg hp]
      by_cases hpk : p.1 = k
      · rw [List.find?_cons_of_pos, List.find?_cons_of_pos] <;> simpa using hpk
      · rw [List.find?_cons_of_neg, List.find?_cons_of_neg]
        · exact ih
        · simpa using hpk
        · simpa using hpk

lemma getParam_update_self (m : Model) (name : String) (v : ℚ) (m' : Model)
    (h : m.update_parameter name v = .ok m') :
    m'.getParam name = some v := by
  rw [Model.update_parameter] at h
  split at h
  · cases h
    rw [Model.getParam]
    rw [find_map_update _ _ _ (by assumption)]
    rfl
  · cases h

lemma getParam_update_other (m : Model) (name : String) (v : ℚ) (m' : Model)
    (h : m.update_parameter name v = .ok m') (k : String) (hk : k ≠ name) :
    m'.getParam k = m.getParam k := by
  rw [Model.update_parameter] at h
  split at h
  · cases h
    rw [Model.getParam, Model.getParam, find_map_update_other _ _ _ _ hk]
  · cases h

lemma dictInsert_mem {α : Type} (d : List (ℚ × α)) (k : ℚ) (v : α)
    (p : ℚ × α) (hp : p ∈ dictInsert d k v) : p ∈ d ∨ p = (k, v) := by
  rw [dictInsert] at hp
  split at hp
  · rcases List.mem_map.1 hp with ⟨q, hq, hqe⟩
    by_cases h : q.1 = k
    · right
      simp [h] at hqe
      exact hqe.symm
    · left
      simp [h] at hqe
      exact hqe ▸ hq
  · rcases List.mem_append.1 hp with h | h
    · exact .inl h
    · exact .inr (List.mem_singleton.1 h)

lemma dictInsert_keys_fresh {α : Type} (d : List (ℚ × α)) (k : ℚ) (v : α)
    (h : d.any (fun p => p.1 = k) = false) :
    (dictInsert d k v).map Prod.fst = d.map Prod.fst ++ [k] := by
  rw [dictInsert, if_neg (by simp [h])]
  simp

lemma meanAbs_reverse (l : List ℚ) : meanAbs l.reverse = meanAbs l := by
  rw [meanAbs, meanAbs]
  by_cases h : l.isEmpty
  · rw [List.isEmpty_iff] at h
    simp [h]
  · have h' : ¬ l.reverse.isEmpty = true := by
      simp only [List.isEmpty_iff] at h ⊢
      simp [h]
    rw [if_neg h', if_neg h, List.map_reverse, List.sum_reverse,
      List.length_reverse]

lemma meanAbs_nonneg (l : List ℚ) (h : l ≠ []) :
    ∃ q, meanAbs l = some q ∧ 0 ≤ q := by
  refine ⟨(l.map (fun r => |r|)).sum / (l.length : ℚ), ?_, ?_⟩
  · rw [meanAbs, if_neg (by simpa [List.isEmpty_iff] using h)]
  · apply div_nonneg
    · apply List.sum_nonneg
      intro x hx
      rcases List.mem_map.1 hx with ⟨r, _, rfl⟩
      exact abs_nonneg r
    · exact_mod_cast Nat.zero_le _

lemma dropColumn_rows_length (t : Table) (name : String) :
    (t.dropColumn name).rows.length = t.rows.length := by
  simp [Table.dropColumn]

lemma iterrows_length (t : Table) : t.iterrows.length = t.rows.length := by
  simp [Table.iterrows, List.enum_length]

lemma sample_ok (dists : List (String × LogNormal)) (n : Int)
    (draw : Nat → String → ℚ) (hn : 0 ≤ n) :
    sample dists n draw =
      .ok ⟨dists.map Prod.fst,
        (List.range n.toNat).map
          (fun i => dists.map (fun p => (p.1, draw i p.1)))⟩ := by
  rw [sample, if_neg (by omega)]

/-! ### The success-path characterisation of the outer loop -/

lemma profileLoop_spec {Data : Type} (svc : FitService Data) (data : Data)
    (pname : String) (dists : Table) (pvs : List ℚ) :
    ∀ (m : Model) (res : List (ℚ × List ℚ)) (tr : ProfTrace),
    m.hasParam pname = true →
    ∃ resF mF,
      profileLoop svc data pname dists m pvs res tr =
        (.ok (resF, mF),
          ⟨tr.sampleSets,
           tr.dispatched ++ pvs.map (fun _ => dists.dropColumn pname),
           tr.fitCalls + pvs.length * dists.rows.length⟩) ∧
      (∀ p ∈ resF, p ∈ res ∨ p.2.length = dists.rows.length) ∧
      mF.parameters.map Prod.fst = m.parameters.map Prod.fst ∧
      (∀ k, k ≠ pname → mF.getParam k = m.getParam k) ∧
      (∀ hne : pvs ≠ [], mF.getParam pname = some (pvs.getLast hne)) ∧
      (pvs = [] → mF = m) := by
  induction pvs with
  | nil =>
    intro m res tr h
    refine ⟨res, m, ?_, fun p hp => .inl hp, rfl, fun _ _ => rfl,
      fun hne => absurd rfl hne, fun _ => rfl⟩
    simp [profileLoop]
  | cons v rest ih =>
    intro m res tr h
    have hup := update_parameter_ok m pname v h
    set m' : Model :=
      ⟨m.parameters.map (fun p => if p.1 = pname then (pname, v) else p)⟩
      with hm'
    have hkeys' : m'.parameters.map Prod.fst = m.parameters.map Prod.fst :=
      update_parameter_keys m pname v m' hup
    have h' : m'.hasParam pname = true := by
      rw [update_parameter_hasParam m pname v m' hup]; exact h
    have hstep : profileLoop svc data pname dists m (v :: rest) res tr =
        profileLoop svc data pname dists m' rest
          (dictInsert res v
            ((parallelise (fun p0 => mc_fit_time_course_worker svc p0 m' data)
              (dists.dropColumn pname).iterrows).map Prod.snd))
          ⟨tr.sampleSets, tr.dispatched ++ [dists.dropColumn pname],
           tr.fitCalls + (dists.dropColumn pname).iterrows.length⟩ := by
      simp only [profileLoop, hup]
    obtain ⟨resF, mF, heq, hvals, hkeys, hother, hlast, hnil⟩ :=
      ih m'
        (dictInsert res v
          ((parallelise (fun p0 => mc_fit_time_course_worker svc p0 m' data)
            (dists.dropColumn pname).iterrows).map Prod.snd))
        ⟨tr.sampleSets, tr.dispatched ++ [dists.dropColumn pname],
         tr.fitCalls + (dists.dropColumn pname).iterrows.length⟩ h'
    refine ⟨resF, mF, ?_, ?_, hkeys.trans hkeys', ?_, ?_, ?_⟩
    · rw [hstep, heq]
      have hlen : (dists.dropColumn pname).iterrows.length = dists.rows.length := by
        rw [iterrows_length, dropColumn_rows_length]
      refine congrArg (Prod.mk _) ?_
      refine congrArg₂ (fun a b => ProfTrace.mk tr.sampleSets a b) ?_ ?_
      · simp [List.append_assoc]
      · rw [hlen]
        simp only [List.length_cons]
        ring
    · intro p hp
      rcases hvals p hp with hin | hlenp
      · rcases dictInsert_mem _ _ _ _ hin with hin' | rfl
        · exact .inl hin'
        · right
          simp [parallelise, iterrows_length, dropColumn_rows_length]
      · exact .inr hlenp
    · intro k hk
      exact (hother k hk).trans (getParam_update_other m pname v m' hup k hk)
    · intro hne
      cases rest with
      | nil =>
        have hmm : mF = m' := hnil rfl
        rw [hmm]
        rw [getParam_update_self m pname v m' hup]
        simp
      | cons w t =>
        rw [hlast (List.cons_ne_nil w t),
          List.getLast_cons (List.cons_ne_nil w t)]
    · intro hc
      exact absurd hc (List.cons_ne_nil v rest)

lemma profileLoop_keys {Data : Type} (svc : FitService Data) (data : Data)
    (pname : String) (dists : Table) (pvs : List ℚ) :
    ∀ (m : Model) (res : List (ℚ × List ℚ)) (tr : ProfTrace),
    m.hasParam pname = true → pvs.Nodup →
    (∀ u ∈ pvs, res.any (fun p => p.1 = u) = false) →
    ∃ resF mF trF,
      profileLoop svc data pname dists m pvs res tr = (.ok (resF, mF), trF) ∧
      resF.map Prod.fst = res.map Prod.fst ++ pvs := by
  induction pvs with
  | nil =>
    intro m res tr _ _ _
    exact ⟨res, m, tr, by simp [profileLoop], by simp⟩
  | cons v rest ih =>
    intro m res tr h hnd hfresh
    have hup := update_parameter_ok m pname v h
    set m' : Model :=
      ⟨m.parameters.map (fun p => if p.1 = pname then (pname, v) else p)⟩
      with hm'
    have h' : m'.hasParam pname = true := by
      rw [update_parameter_hasParam m pname v m' hup]; exact h
    have hvfresh : res.any (fun p => p.1 = v) = false :=
      hfresh v (List.mem_cons_self v rest)
    have hkeysIns : (dictInsert res v
        ((parallelise (fun p0 => mc_fit_time_course_worker svc p0 m' data)
          (dists.dropColumn pname).iterrows).map Prod.snd)).map Prod.fst =
        res.map Prod.fst ++ [v] :=
      dictInsert_keys_fresh res v _ hvfresh
    have hfresh' : ∀ u ∈ rest,
        (dictInsert res v
          ((parallelise (fun p0 => mc_fit_time_course_worker svc p0 m' data)
            (dists.dropColumn pname).iterrows).map Prod.snd)).any
          (fun p => p.1 = u) = false := by
      intro u hu
      have hne : ¬ (v = u) := by
        rcases List.nodup_cons.1 hnd with ⟨hv, _⟩
        exact fun hc => hv (hc ▸ hu)
      rw [any_fst_rat, hkeysIns, List.any_append]
      have h1 : (res.map Prod.fst).any (fun s => s = u) = false := by
        rw [← any_fst_rat]; exact hfresh u (List.mem_cons_of_mem _ hu)
      simp [h1, hne]
    obtain ⟨resF, mF, trF, heq, hkeys⟩ :=
      ih m'
        (dictInsert res v
          ((parallelise (fun p0 => mc_fit_time_course_worker svc p0 m' data)
            (dists.dropColumn pname).iterrows).map Prod.snd))
        ⟨tr.sampleSets, tr.dispatched ++ [dists.dropColumn pname],
         tr.fitCalls + (dists.dropColumn pname).iterrows.length⟩
        h' (List.nodup_cons.1 hnd).2 hfresh'
    refine ⟨resF, mF, trF, ?_, ?_⟩
    · have hstep : profileLoop svc data pname dists m (v :: rest) res tr =
          profileLoop svc data pname dists m' rest
            (dictInsert res v
              ((parallelise (fun p0 => mc_fit_time_course_worker svc p0 m' data)
                (dists.dropColumn pname).iterrows).map Prod.snd))
            ⟨tr.sampleSets, tr.dispatched ++ [dists.dropColumn pname],
             tr.fitCalls + (dists.dropColumn pname).iterrows.length⟩ := by
        simp only [profileLoop, hup]
      rw [hstep, heq]
    · rw [hkeys, hkeysIns, List.append_assoc, List.singleton_append]

/-- The complete success-path description of one `profile_likelihood` run:
the sample set drawn, the returned error series, the final model and the
trace, under the conditions the source needs to run to completion (the
profiled name is a model parameter and the draw count is non-negative). -/
lemma profile_spec {Data : Type} (svc : FitService Data) (data : Data)
    (model : Model) (pname : String) (pvs : List ℚ) (n : Int)
    (draw : Nat → String → ℚ)
    (h : model.hasParam pname = true) (hn : 0 ≤ n) :
    ∃ (T : Table) (errs : List (ℚ × Option ℚ)) (mF : Model),
      T.cols = model.parameters.map Prod.fst ∧
      T.rows.length = n.toNat ∧
      profile_likelihood model data pname pvs n svc draw =
        ⟨.ok (errs, mF),
         ⟨[T], pvs.map (fun _ => T.dropColumn pname),
          pvs.length * n.toNat⟩⟩ ∧
      (∀ p ∈ errs, ∃ rs : List ℚ, rs.length = n.toNat ∧ p.2 = meanAbs rs) ∧
      mF.parameters.map Prod.fst = model.parameters.map Prod.fst ∧
      (∀ k, k ≠ pname → mF.getParam k = model.getParam k) ∧
      (∀ hne : pvs ≠ [], mF.getParam pname = some (pvs.getLast hne)) := by
  have hs := sample_ok
    (model.parameters.map (fun p => (p.1, LogNormal.mk p.2 1))) n draw hn
  set T : Table :=
    ⟨(model.parameters.map (fun p => (p.1, LogNormal.mk p.2 1))).map Prod.fst,
     (List.range n.toNat).map
       (fun i => (model.parameters.map (fun p => (p.1, LogNormal.mk p.2 1))).map
         (fun p => (p.1, draw i p.1)))⟩ with hT
  have hTc : T.cols = model.parameters.map Prod.fst := by
    rw [hT]
    simp [List.map_map, Function.comp]
  have hTr : T.rows.length = n.toNat := by
    rw [hT]
    simp
  obtain ⟨resF, mF, heq, hvals, hkeys, hother, hlast, _⟩ :=
    profileLoop_spec svc data pname T pvs model [] ⟨[T], [], 0⟩ h
  refine ⟨T, resF.map (fun p => (p.1, meanAbs p.2)), mF, hTc, hTr, ?_, ?_,
    hkeys, hother, hlast⟩
  · rw [profile_likelihood, hs]
    simp only []
    rw [heq]
    simp [hTr]
  · intro p hp
    rcases List.mem_map.1 hp with ⟨q, hq, rfl⟩
    rcases hvals q hq with hin | hlen
    · exact absurd hin (List.not_mem_nil q)
    · exact ⟨q.2, by rw [hlen, hTr], rfl⟩

/-- Key order of the returned series: for pairwise-distinct candidate
values the series' keys are exactly the candidate values in order. -/
lemma profile_spec_keys {Data : Type} (svc : FitService Data) (data : Data)
    (model : Model) (pname : String) (pvs : List ℚ) (n : Int)
    (draw : Nat → String → ℚ)
    (h : model.hasParam pname = true) (hn : 0 ≤ n) (hnd : pvs.Nodup) :
    ∃ errs mF,
      (profile_likelihood model data pname pvs n svc draw).result =
        .ok (errs, mF) ∧
      errs.map Prod.fst = pvs := by
  have hs := sample_ok
    (model.parameters.map (fun p => (p.1, LogNormal.mk p.2 1))) n draw hn
  set T : Table :=
    ⟨(model.parameters.map (fun p => (p.1, LogNormal.mk p.2 1))).map Prod.fst,
     (List.range n.toNat).map
       (fun i => (model.parameters.map (fun p => (p.1, LogNormal.mk p.2 1))).map
         (fun p => (p.1, draw i p.1)))⟩ with hT
  obtain ⟨resF, mF, trF, heq, hkeys⟩ :=
    profileLoop_keys svc data pname T pvs model [] ⟨[T], [], 0⟩ h hnd
      (fun u _ => rfl)
  refine ⟨resF.map (fun p => (p.1, meanAbs p.2)), mF, ?_, ?_⟩
  · rw [profile_likelihood, hs]
    simp only []
    rw [heq]
  · rw [List.map_map]
    have : (Prod.fst ∘ fun p : ℚ × List ℚ => (p.1, meanAbs p.2)) =
        Prod.fst := rfl
    rw [this, hkeys]
    simp

/-! ### Reverse-order execution of the inner fan-out -/

/-- Apply a function to every value of a dict, keeping the keys. -/
def mapVals {α β : Type} (g : α → β) (d : List (ℚ × α)) : List (ℚ × β) :=
  d.map (fun p => (p.1, g p.2))

lemma dictInsert_mapVals {α β : Type} (g : α → β) (d : List (ℚ × α))
    (k : ℚ) (v : α) :
    dictInsert (mapVals g d) k (g v) = mapVals g (dictInsert d k v) := by
  rw [dictInsert, dictInsert]
  have hany : (mapVals g d).any (fun p => p.1 = k) =
      d.any (fun p => p.1 = k) := by
    induction d with
    | nil => rfl
    | cons p t iht =>
      simp only [mapVals, List.map_cons, List.any_cons] at iht ⊢
      rw [iht]
  rw [hany]
  split
  · rw [mapVals, mapVals, List.map_map, List.map_map]
    refine List.map_congr_left (fun p _ => ?_)
    by_cases hp : p.1 = k <;> simp [Function.comp, hp]
  · rw [mapVals, mapVals, List.map_append]
    rfl

lemma parallelise_rev_eq {α β : Type} (fn : α → β)
    (inputs : List (Nat × α)) :
    parallelise_rev fn inputs = (parallelise fn inputs).reverse := by
  rw [parallelise_rev, parallelise, List.map_reverse]

lemma profileLoopRev_spec {Data : Type} (svc : FitService Data) (data : Data)
    (pname : String) (dists : Table) (pvs : List ℚ) :
    ∀ (m : Model) (res : List (ℚ × List ℚ)) (tr : ProfTrace),
    profileLoopRev svc data pname dists m pvs (mapVals List.reverse res) tr =
      (match profileLoop svc data pname dists m pvs res tr with
       | (.ok (r, mF), t) => (.ok (mapVals List.reverse r, mF), t)
       | (.error e, t) => (.error e, t)) := by
  induction pvs with
  | nil =>
    intro m res tr
    simp [profileLoop, profileLoopRev]
  | cons v rest ih =>
    intro m res tr
    cases hup : m.update_parameter pname v with
    | error e => simp [profileLoop, profileLoopRev, hup]
    | ok m' =>
      simp only [profileLoop, profileLoopRev, hup]
      have hR : (parallelise_rev
            (fun p0 => mc_fit_time_course_worker svc p0 m' data)
            (dists.dropColumn pname).iterrows).map Prod.snd =
          List.reverse ((parallelise
            (fun p0 => mc_fit_time_course_worker svc p0 m' data)
            (dists.dropColumn pname).iterrows).map Prod.snd) := by
        rw [parallelise_rev_eq, List.map_reverse]
      rw [hR, dictInsert_mapVals]
      exact ih m' _ _

/-! ### Claim theorems for the profile-likelihood engine -/

/-- C1 (amended): for pairwise-distinct candidate values, the returned
series' keys equal `parameter_values` in the same order and cardinality.
(Duplicated candidate values are collapsed by the `res` dict, hence the
distinctness hypothesis.) -/
theorem profile_keys_preserve_order_of_nodup {Data : Type}
    (svc : FitService Data) (data : Data) (model : Model) (pname : String)
    (pvs : List ℚ) (n : Int) (draw : Nat → String → ℚ)
    (h : model.hasParam pname = true) (hn : 0 ≤ n) (hnd : pvs.Nodup) :
    ∃ errs mF,
      (profile_likelihood model data pname pvs n svc draw).result =
        .ok (errs, mF) ∧
      errs.map Prod.fst = pvs :=
  profile_spec_keys svc data model pname pvs n draw h hn hnd

/-- Witness for C1's theorem at a concrete input. -/
theorem profile_keys_preserve_order_witness :
    ∃ errs mF,
      (profile_likelihood ⟨[("k", 1)]⟩ () "k" [1, 2] 1 zeroFit
          oneDraw).result = .ok (errs, mF) ∧
      errs.map Prod.fst = [1, 2] :=
  profile_keys_preserve_order_of_nodup zeroFit () ⟨[("k", 1)]⟩ "k" [1, 2] 1
    oneDraw (by decide) (by decide) (by decide)

/-- C1 counterexample: with the duplicated candidate list `[1, 1]` the
returned series has a single key, not two — duplicates are collapsed. -/
theorem profile_keys_duplicates_collapsed_cex :
    ¬ ((profile_likelihood ⟨[("k", 1)]⟩ () "k" [1, 1] 1 zeroFit
        oneDraw).result.toOption.map (fun p => p.1.map Prod.fst) =
      some [1, 1]) := by decide

/-- C2 (amended): the sample set is generated exactly once per run, before
the outer loop, with `n_random` rows and one column per model parameter
(including the profiled one); each of the `parameter_values.length`
per-candidate dispatches drops the profiled column, so the tables handed to
the executor have the remaining columns and `n_random` rows. -/
theorem profile_sample_set_drawn_once {Data : Type} (svc : FitService Data)
    (data : Data) (model : Model) (pname : String) (pvs : List ℚ) (n : Int)
    (draw : Nat → String → ℚ)
    (h : model.hasParam pname = true) (hn : 0 ≤ n) :
    ((profile_likelihood model data pname pvs n svc
        draw).trace.sampleSets.length = 1) ∧
    (∀ t ∈ (profile_likelihood model data pname pvs n svc
        draw).trace.sampleSets,
      t.cols = model.parameters.map Prod.fst ∧ t.rows.length = n.toNat) ∧
    ((profile_likelihood model data pname pvs n svc
        draw).trace.dispatched.length = pvs.length) ∧
    (∀ t ∈ (profile_likelihood model data pname pvs n svc
        draw).trace.dispatched,
      t.cols = (model.parameters.map Prod.fst).filter (fun c => c ≠ pname) ∧
      t.rows.length = n.toNat) := by
  obtain ⟨T, errs, mF, hTc, hTr, heq, _, _, _, _⟩ :=
    profile_spec svc data model pname pvs n draw h hn
  rw [heq]
  refine ⟨rfl, ?_, by simp, ?_⟩
  · intro t ht
    have : t = T := List.mem_singleton.1 ht
    rw [this]
    exact ⟨hTc, hTr⟩
  · intro t ht
    rcases List.mem_map.1 ht with ⟨_, _, rfl⟩
    constructor
    · rw [Table.dropColumn]
      rw [hTc]
    · rw [dropColumn_rows_length, hTr]

/-- Witness for C2's theorem at a concrete input. -/
theorem profile_sample_set_drawn_once_witness :
    ((profile_likelihood ⟨[("a", 1), ("b", 2)]⟩ () "a" [1, 2] 1 zeroFit
        oneDraw).trace.sampleSets.length = 1) ∧
    (∀ t ∈ (profile_likelihood ⟨[("a", 1), ("b", 2)]⟩ () "a" [1, 2] 1 zeroFit
        oneDraw).trace.sampleSets,
      t.cols = ["a", "b"] ∧ t.rows.length = 1) ∧
    ((profile_likelihood ⟨[("a", 1), ("b", 2)]⟩ () "a" [1, 2] 1 zeroFit
        oneDraw).trace.dispatched.length = 2) ∧
    (∀ t ∈ (profile_likelihood ⟨[("a", 1), ("b", 2)]⟩ () "a" [1, 2] 1 zeroFit
        oneDraw).trace.dispatched,
      t.cols = ["b"] ∧ t.rows.length = 1) :=
  profile_sample_set_drawn_once zeroFit () ⟨[("a", 1), ("b", 2)]⟩ "a" [1, 2]
    1 oneDraw (by decide) (by decide)

/-- C2 counterexample: with two candidate values only one sample set is
generated (not one per outer iteration), and it still carries the profiled
parameter's column. -/
theorem profile_sample_set_not_regenerated_cex :
    ¬ (((profile_likelihood ⟨[("a", 1), ("b", 2)]⟩ () "a" [1, 2] 1 zeroFit
          oneDraw).trace.sampleSets.length = 2) ∧
       (∀ t ∈ (profile_likelihood ⟨[("a", 1), ("b", 2)]⟩ () "a" [1, 2] 1
          zeroFit oneDraw).trace.sampleSets, t.cols = ["b"])) := by decide

/-- C3 (amended): `n_random` is not validated.  With `n_random = 0` the
engine completes normally, dispatches zero fitting jobs, and every
candidate's aggregated error is missing (pandas NaN, embedded `none`);
with negative `n_random` the underlying sampler fails with a generic
numeric error, still before any fitting job — no `InvalidArgument` is
raised in either case. -/
theorem profile_no_nrandom_validation {Data : Type} (svc : FitService Data)
    (data : Data) (model : Model) (pname : String) (pvs : List ℚ)
    (draw : Nat → String → ℚ) (h : model.hasParam pname = true) :
    (∀ n : Int, n = 0 →
      ∃ errs mF,
        (profile_likelihood model data pname pvs n svc draw).result =
          .ok (errs, mF) ∧
        (∀ p ∈ errs, p.2 = none) ∧
        (profile_likelihood model data pname pvs n svc
          draw).trace.fitCalls = 0) ∧
    (∀ n : Int, n < 0 →
      (profile_likelihood model data pname pvs n svc draw).result =
        .error .numericError ∧
      (profile_likelihood model data pname pvs n svc
        draw).trace.fitCalls = 0) := by
  constructor
  · rintro n rfl
    obtain ⟨T, errs, mF, hTc, hTr, heq, herrs, _, _, _⟩ :=
      profile_spec svc data model pname pvs 0 draw h (by omega)
    refine ⟨errs, mF, by rw [heq], ?_, by rw [heq]; simp⟩
    intro p hp
    obtain ⟨rs, hlen, hmean⟩ := herrs p hp
    have hrs : rs = [] := List.length_eq_zero.1 (by rw [hlen]; rfl)
    rw [hmean, hrs, meanAbs]
    simp
  · intro n hneg
    have hs : sample
        (model.parameters.map (fun p => (p.1, LogNormal.mk p.2 1))) n draw =
        .error .numericError := by
      rw [sample, if_pos hneg]
    constructor
    · rw [profile_likelihood, hs]
    · rw [profile_likelihood, hs]

/-- Witness for C3's theorem at a concrete input (`n_random = 0`). -/
theorem profile_no_nrandom_validation_witness :
    ∃ errs mF,
      (profile_likelihood ⟨[("k", 1)]⟩ () "k" [1] 0 zeroFit
          oneDraw).result = .ok (errs, mF) ∧
      (∀ p ∈ errs, p.2 = none) ∧
      (profile_likelihood ⟨[("k", 1)]⟩ () "k" [1] 0 zeroFit
          oneDraw).trace.fitCalls = 0 :=
  (profile_no_nrandom_validation zeroFit () ⟨[("k", 1)]⟩ "k" [1] oneDraw
    (by decide)).1 0 rfl

/-- C3 counterexample: called with `n_random = 0` the engine does not fail
with `InvalidArgument` — it returns normally. -/
theorem profile_nrandom_zero_no_invalid_argument_cex :
    ¬ ((profile_likelihood ⟨[("k", 1)]⟩ () "k" [1] 0 zeroFit
          oneDraw).result = .error .invalidArgument ∧
       (profile_likelihood ⟨[("k", 1)]⟩ () "k" [1] 0 zeroFit
          oneDraw).trace.fitCalls = 0) := by decide

/-- C4: every candidate's aggregated error is the arithmetic mean of the
absolute values of its `n_random` per-draw residuals, and is therefore
non-negative; one fit job is dispatched per draw and candidate. -/
theorem profile_error_is_mean_abs_nonneg {Data : Type}
    (svc : FitService Data) (data : Data) (model : Model) (pname : String)
    (pvs : List ℚ) (n : Int) (draw : Nat → String → ℚ)
    (h : model.hasParam pname = true) (hn : 1 ≤ n) :
    ∃ errs mF,
      (profile_likelihood model data pname pvs n svc draw).result =
        .ok (errs, mF) ∧
      (profile_likelihood model data pname pvs n svc draw).trace.fitCalls =
        pvs.length * n.toNat ∧
      ∀ p ∈ errs, ∃ rs : List ℚ, rs.length = n.toNat ∧
        p.2 = some ((rs.map (fun r => |r|)).sum / (rs.length : ℚ)) ∧
        ∀ q, p.2 = some q → 0 ≤ q := by
  obtain ⟨T, errs, mF, hTc, hTr, heq, herrs, _, _, _⟩ :=
    profile_spec svc data model pname pvs n draw h (by omega)
  refine ⟨errs, mF, by rw [heq], by rw [heq], ?_⟩
  intro p hp
  obtain ⟨rs, hlen, hmean⟩ := herrs p hp
  have hne : rs ≠ [] := by
    intro hc
    rw [hc] at hlen
    simp at hlen
    omega
  obtain ⟨q', hq', hnn⟩ := meanAbs_nonneg rs hne
  refine ⟨rs, hlen, ?_, ?_⟩
  · rw [hmean, meanAbs, if_neg (by simpa [List.isEmpty_iff] using hne)]
  · intro q hq
    rw [hmean, hq'] at hq
    cases hq
    exact hnn

/-- Witness for C4's theorem at a concrete input. -/
theorem profile_error_is_mean_abs_nonneg_witness :
    ∃ errs mF,
      (profile_likelihood ⟨[("k", 1)]⟩ () "k" [1, 2] 2 zeroFit
          oneDraw).result = .ok (errs, mF) ∧
      (profile_likelihood ⟨[("k", 1)]⟩ () "k" [1, 2] 2 zeroFit
          oneDraw).trace.fitCalls = 2 * 2 ∧
      ∀ p ∈ errs, ∃ rs : List ℚ, rs.length = 2 ∧
        p.2 = some ((rs.map (fun r => |r|)).sum / (rs.length : ℚ)) ∧
        ∀ q, p.2 = some q → 0 ≤ q :=
  profile_error_is_mean_abs_nonneg zeroFit () ⟨[("k", 1)]⟩ "k" [1, 2] 2
    oneDraw (by decide) (by decide)

/-- C5 (amended): with an unknown `parameter_name` the run fails with the
unknown-parameter error raised by the model update in the first loop
iteration — after the full sample set has already been drawn (so the
validation is not eager) — with zero fitting jobs dispatched and no
partial results. -/
theorem profile_unknown_parameter_after_sampling {Data : Type}
    (svc : FitService Data) (data : Data) (model : Model) (pname : String)
    (pvs : List ℚ) (n : Int) (draw : Nat → String → ℚ)
    (hmiss : model.hasParam pname = false) (hn : 0 ≤ n) (hne : pvs ≠ []) :
    (profile_likelihood model data pname pvs n svc draw).result =
      .error .unknownParameter ∧
    (profile_likelihood model data pname pvs n svc
      draw).trace.sampleSets.length = 1 ∧
    (profile_likelihood model data pname pvs n svc
      draw).trace.dispatched = [] ∧
    (profile_likelihood model data pname pvs n svc
      draw).trace.fitCalls = 0 := by
  have hs := sample_ok
    (model.parameters.map (fun p => (p.1, LogNormal.mk p.2 1))) n draw hn
  cases pvs with
  | nil => exact absurd rfl hne
  | cons v rest =>
    have hupd : model.update_parameter pname v = .error .unknownParameter := by
      rw [Model.update_parameter, if_neg]
      simp only [Model.hasParam] at hmiss
      simp [hmiss]
    have hred : profile_likelihood model data pname (v :: rest) n svc draw =
        ⟨.error .unknownParameter,
         ⟨[⟨(model.parameters.map
              (fun p => (p.1, LogNormal.mk p.2 1))).map Prod.fst,
            (List.range n.toNat).map
              (fun i => (model.parameters.map
                (fun p => (p.1, LogNormal.mk p.2 1))).map
                  (fun p => (p.1, draw i p.1)))⟩],
          [], 0⟩⟩ := by
      rw [profile_likelihood, hs]
      simp only []
      simp only [profileLoop, hupd]
    rw [hred]
    exact ⟨rfl, rfl, rfl, rfl⟩

/-- Witness for C5's theorem at a concrete input. -/
theorem profile_unknown_parameter_after_sampling_witness :
    (profile_likelihood ⟨[("a", 1)]⟩ () "zzz" [1] 1 zeroFit
        oneDraw).result = .error .unknownParameter ∧
    (profile_likelihood ⟨[("a", 1)]⟩ () "zzz" [1] 1 zeroFit
        oneDraw).trace.sampleSets.length = 1 ∧
    (profile_likelihood ⟨[("a", 1)]⟩ () "zzz" [1] 1 zeroFit
        oneDraw).trace.dispatched = [] ∧
    (profile_likelihood ⟨[("a", 1)]⟩ () "zzz" [1] 1 zeroFit
        oneDraw).trace.fitCalls = 0 :=
  profile_unknown_parameter_after_sampling zeroFit () ⟨[("a", 1)]⟩ "zzz"
    [1] 1 oneDraw (by decide) (by decide) (by decide)

/-- C5 counterexample: the unknown-parameter failure is not eager — the
sample set has already been drawn when the run aborts, so it is false that
the failure precedes all work (no sample set generated). -/
theorem profile_unknown_parameter_not_eager_cex :
    ¬ ((profile_likelihood ⟨[("a", 1)]⟩ () "zzz" [1] 1 zeroFit
          oneDraw).result = .error .unknownParameter ∧
       (profile_likelihood ⟨[("a", 1)]⟩ () "zzz" [1] 1 zeroFit
          oneDraw).trace.sampleSets = [] ∧
       (profile_likelihood ⟨[("a", 1)]⟩ () "zzz" [1] 1 zeroFit
          oneDraw).trace.fitCalls = 0) := by decide

/-- C8: after a normal return the caller's model carries the last candidate
value under `parameter_name` (no restoration of the original value), and
every other parameter entry is unchanged by the engine's own mutations. -/
theorem profile_model_left_at_last_value {Data : Type}
    (svc : FitService Data) (data : Data) (model : Model) (pname : String)
    (pvs : List ℚ) (n : Int) (draw : Nat → String → ℚ)
    (h : model.hasParam pname = true) (hn : 0 ≤ n) (hne : pvs ≠ []) :
    ∃ errs mF,
      (profile_likelihood model data pname pvs n svc draw).result =
        .ok (errs, mF) ∧
      mF.getParam pname = some (pvs.getLast hne) ∧
      ∀ k, k ≠ pname → mF.getParam k = model.getParam k := by
  obtain ⟨T, errs, mF, _, _, heq, _, _, hother, hlast⟩ :=
    profile_spec svc data model pname pvs n draw h hn
  exact ⟨errs, mF, by rw [heq], hlast hne, hother⟩

/-- Witness for C8's theorem at a concrete input. -/
theorem profile_model_left_at_last_value_witness :
    ∃ errs mF,
      (profile_likelihood ⟨[("k", 1), ("c", 5)]⟩ () "k" [3, 7] 1 zeroFit
          oneDraw).result = .ok (errs, mF) ∧
      mF.getParam "k" = some (([3, 7] : List ℚ).getLast (by decide)) ∧
      ∀ k, k ≠ "k" → mF.getParam k = Model.getParam ⟨[("k", 1), ("c", 5)]⟩ k :=
  profile_model_left_at_last_value zeroFit () ⟨[("k", 1), ("c", 5)]⟩ "k"
    [3, 7] 1 oneDraw (by decide) (by decide) (by decide)

/-- C9: executing the inner Monte-Carlo jobs in reverse order yields
exactly the same run — in particular the same aggregated error for every
candidate value — as forward order. -/
theorem profile_error_invariant_under_reversed_execution {Data : Type}
    (svc : FitService Data) (data : Data) (model : Model) (pname : String)
    (pvs : List ℚ) (n : Int) (draw : Nat → String → ℚ) :
    profile_likelihood_rev model data pname pvs n svc draw =
      profile_likelihood model data pname pvs n svc draw := by
  cases hs : sample
      (model.parameters.map (fun p => (p.1, LogNormal.mk p.2 1))) n draw with
  | error e => rw [profile_likelihood_rev, profile_likelihood, hs]
  | ok T =>
    rw [profile_likelihood_rev, profile_likelihood, hs]
    simp only []
    have hrev := profileLoopRev_spec svc data pname T pvs model []
      ⟨[T], [], 0⟩
    have hnilv : mapVals List.reverse ([] : List (ℚ × List ℚ)) = [] := rfl
    rw [hnilv] at hrev
    rw [hrev]
    rcases hloop : profileLoop svc data pname T model pvs [] ⟨[T], [], 0⟩
      with ⟨e | ⟨res, mF⟩, t⟩
    · rfl
    · simp only []
      have hmv : (mapVals List.reverse res).map
          (fun p => (p.1, meanAbs p.2)) =
          res.map (fun p => (p.1, meanAbs p.2)) := by
        rw [mapVals, List.map_map]
        refine List.map_congr_left (fun p _ => ?_)
        simp [Function.comp, meanAbs_reverse]
      rw [hmv]

/-! ### The polynomial surrogate trainer -/

/-- Failure conditions for the surrogate trainer.  `emptyInput` is the
spec's named error taxonomy entry; `numericError` stands for the generic
exceptions numpy raises from `fit` / `argmin` on degenerate input. -/
inductive PolyErr : Type where
  | emptyInput
  | numericError
deriving DecidableEq

/-- The outcome of `train_polynomial`: the index (into `degrees`) and the
degree of the selected fitted model, and the diagnostics table — one row
`(degree, mean squared error, score)` per requested degree, in the given
order.  The source's `error` column stores the square root of the mean
squared error (RMSE), an order-isomorphic real-valued quantity outside ℚ;
the selected model object itself is identified by its position, since the
external fit is a deterministic function of (feature, target, degree). -/
structure PolyRun : Type where
  selectedIdx : Nat
  selectedDegree : Nat
  diagnostics : List (Nat × ℚ × ℚ)
deriving DecidableEq

/-- `np.sum(np.square(predictions - target))` for one candidate model:
the sum of squared residuals of its predictions at the feature points. -/
def sumSq (feature target : List ℚ) (pred : ℚ → ℚ) : ℚ :=
  (((feature.map pred).zip target).map (fun q => (q.1 - q.2) ^ 2)).sum

/-- `log_likelihood = -0.5 * np.sum(np.square(predictions - target))`. -/
def log_likelihood (feature target : List ℚ) (pred : ℚ → ℚ) : ℚ :=
  -(1 / 2 : ℚ) * sumSq feature target pred

/-- `score = 2 * degree - 2 * log_likelihood`: the AIC-style score of one
candidate degree. -/
def aicScore (feature target : List ℚ) (fitFn : Nat → ℚ → ℚ) (d : Nat) : ℚ :=
  2 * (d : ℚ) - 2 * log_likelihood feature target (fitFn d)

/-- `np.argmin`: the index of the first occurrence of the minimum of a
non-empty vector — the first entry that is ≤ every entry. -/
def argminIdx (l : List ℚ) : Nat :=
  l.findIdx (fun x => l.all (fun y => x ≤ y))

/-- `train_polynomial` (src/mxlpy/surrogates/_poly.py, lines 36-100).  The
external numpy least-squares fit `fn_series.fit(feature, target, degree)`
is abstracted as `fitFn degree : ℚ → ℚ`, the fitted model's evaluation
map.  The source performs no input validation: empty or length-mismatched
feature/target make the underlying numpy fit raise, and an empty degree
list makes `np.argmin` raise; all of these are generic `ValueError`-style
exceptions, embedded as `numericError` — no named `EmptyInput` check
exists in the source. -/
def train_polynomial (feature target : List ℚ) (fitFn : Nat → ℚ → ℚ)
    (degrees : List Nat) : Except PolyErr PolyRun :=
  if feature.length = 0 ∨ target.length = 0 ∨
      feature.length ≠ target.length ∨ degrees.isEmpty then
    .error .numericError
  else
    let score := degrees.map (aicScore feature target fitFn)
    let errors := degrees.map
      (fun d => sumSq feature target (fitFn d) / (feature.length : ℚ))
    .ok ⟨argminIdx score, degrees.getD (argminIdx score) 0,
      degrees.zip (errors.zip score)⟩

lemma exists_min (l : List ℚ) (h : l ≠ []) : ∃ x ∈ l, ∀ y ∈ l, x ≤ y := by
  induction l with
  | nil => exact absurd rfl h
  | cons a t ih =>
    cases t with
    | nil =>
      refine ⟨a, List.mem_singleton_self a, ?_⟩
      intro y hy
      rw [List.mem_singleton.1 hy]
    | cons b u =>
      obtain ⟨x, hx, hmin⟩ := ih (List.cons_ne_nil b u)
      by_cases hax : a ≤ x
      · refine ⟨a, List.mem_cons_self a _, ?_⟩
        intro y hy
        rcases List.mem_cons.1 hy with rfl | hy'
        · exact le_refl y
        · exact hax.trans (hmin y hy')
      · refine ⟨x, List.mem_cons_of_mem a hx, ?_⟩
        intro y hy
        rcases List.mem_cons.1 hy with rfl | hy'
        · exact (not_le.1 hax).le
        · exact hmin y hy'

lemma argminIdx_lt_length (l : List ℚ) (h : l ≠ []) :
    argminIdx l < l.length := by
  obtain ⟨x, hx, hmin⟩ := exists_min l h
  apply List.findIdx_lt_length_of_exists
  refine ⟨x, hx, ?_⟩
  rw [List.all_eq_true]
  intro y hy
  simpa using hmin y hy

lemma argminIdx_min (l : List ℚ) (h : argminIdx l < l.length) :
    ∀ y ∈ l, l.getD (argminIdx l) 0 ≤ y := by
  have hall := @List.findIdx_getElem _ (fun x => l.all (fun y => x ≤ y)) l h
  rw [List.all_eq_true] at hall
  intro y hy
  have := hall y hy
  rw [List.getD_eq_getElem l 0 h]
  simpa using this

lemma argminIdx_first (l : List ℚ) (h : argminIdx l < l.length) :
    ∀ j, j < argminIdx l → l.getD (argminIdx l) 0 < l.getD j 0 := by
  intro j hj
  have hjl : j < l.length := hj.trans h
  have hfalse :=
    @List.not_of_lt_findIdx _ (fun x => l.all (fun y => x ≤ y)) l j hj
  rw [Bool.eq_false_iff] at hfalse
  have : ¬ (∀ y ∈ l, l[j] ≤ y) := by
    intro hc
    apply hfalse
    rw [List.all_eq_true]
    intro y hy
    simpa using hc y hy
  push_neg at this
  obtain ⟨y, hy, hylt⟩ := this
  calc l.getD (argminIdx l) 0 ≤ y := argminIdx_min l h y hy
    _ < l[j] := hylt
    _ = l.getD j 0 := (List.getD_eq_getElem l 0 hjl).symm

/-- The success path of `train_polynomial`, spelled out. -/
lemma train_polynomial_ok (feature target : List ℚ) (fitFn : Nat → ℚ → ℚ)
    (degrees : List Nat) (hf : feature ≠ [])
    (hlen : feature.length = target.length) (hd : degrees ≠ []) :
    train_polynomial feature target fitFn degrees =
      .ok ⟨argminIdx (degrees.map (aicScore feature target fitFn)),
        degrees.getD
          (argminIdx (degrees.map (aicScore feature target fitFn))) 0,
        degrees.zip
          ((degrees.map
            (fun d => sumSq feature target (fitFn d) /
              (feature.length : ℚ))).zip
            (degrees.map (aicScore feature target fitFn)))⟩ := by
  rw [train_polynomial, if_neg]
  push_neg
  refine ⟨?_, ?_, hlen, ?_⟩
  · simpa [List.length_eq_zero] using hf
  · rw [← hlen]
    simpa [List.length_eq_zero] using hf
  · simpa [List.isEmpty_iff] using hd

/-- Positional description of the diagnostics rows. -/
lemma diag_mem_spec (feature target : List ℚ) (fitFn : Nat → ℚ → ℚ)
    (degrees : List Nat) (p : Nat × ℚ × ℚ)
    (hp : p ∈ degrees.zip
      ((degrees.map
        (fun d => sumSq feature target (fitFn d) /
          (feature.length : ℚ))).zip
        (degrees.map (aicScore feature target fitFn)))) :
    ∃ i, ∃ hi : i < degrees.length,
      p.1 = degrees[i] ∧
      p.2.1 = sumSq feature target (fitFn degrees[i]) /
        (feature.length : ℚ) ∧
      p.2.2 = aicScore feature target fitFn degrees[i] := by
  rw [List.mem_iff_getElem] at hp
  obtain ⟨i, hi, hpe⟩ := hp
  have hlen1 : i < degrees.length := by simpa using hi
  refine ⟨i, hlen1, ?_, ?_, ?_⟩ <;>
  · rw [← hpe]
    simp [List.getElem_zip, List.getElem_map]

/-- C6: `train_polynomial` scores every candidate degree `d` as
`2*d - 2*log_likelihood` with `log_likelihood = -0.5 * Σ (pred-target)²`,
and the selected model's score is minimal among all candidates. -/
theorem train_polynomial_selects_min_score (feature target : List ℚ)
    (fitFn : Nat → ℚ → ℚ) (degrees : List Nat) (hf : feature ≠ [])
    (hlen : feature.length = target.length) (hd : degrees ≠ []) :
    ∃ run, train_polynomial feature target fitFn degrees = .ok run ∧
      run.selectedIdx < degrees.length ∧
      run.selectedDegree = degrees.getD run.selectedIdx 0 ∧
      (∀ p ∈ run.diagnostics,
        p.2.2 = 2 * (p.1 : ℚ) -
          2 * (-(1 / 2 : ℚ) *
            (((feature.map (fitFn p.1)).zip target).map
              (fun q => (q.1 - q.2) ^ 2)).sum)) ∧
      (∀ p ∈ run.diagnostics,
        aicScore feature target fitFn run.selectedDegree ≤ p.2.2) := by
  have hok := train_polynomial_ok feature target fitFn degrees hf hlen hd
  have hsne : degrees.map (aicScore feature target fitFn) ≠ [] := by
    simpa [List.map_eq_nil_iff] using hd
  have hslen : (degrees.map (aicScore feature target fitFn)).length =
      degrees.length := by simp
  have hidx : argminIdx (degrees.map (aicScore feature target fitFn)) <
      degrees.length := by
    rw [← hslen]
    exact argminIdx_lt_length _ hsne
  refine ⟨_, hok, hidx, rfl, ?_, ?_⟩
  · intro p hp
    obtain ⟨i, hi, h1, _, h3⟩ :=
      diag_mem_spec feature target fitFn degrees p hp
    rw [h3, h1, aicScore, log_likelihood, sumSq]
  · intro p hp
    obtain ⟨i, hi, h1, _, h3⟩ :=
      diag_mem_spec feature target fitFn degrees p hp
    have hsel : degrees.getD
        (argminIdx (degrees.map (aicScore feature target fitFn))) 0 =
        degrees[argminIdx (degrees.map (aicScore feature target fitFn))] :=
      List.getD_eq_getElem degrees 0 hidx
    have hselscore : aicScore feature target fitFn
        (degrees.getD
          (argminIdx (degrees.map (aicScore feature target fitFn))) 0) =
        (degrees.map (aicScore feature target fitFn)).getD
          (argminIdx (degrees.map (aicScore feature target fitFn))) 0 := by
      rw [hsel, List.getD_eq_getElem _ 0 (by rw [hslen]; exact hidx),
        List.getElem_map]
    have him : i < (degrees.map (aicScore feature target fitFn)).length := by
      rw [hslen]
      exact hi
    have hm : (degrees.map (aicScore feature target fitFn))[i] =
        aicScore feature target fitFn degrees[i] :=
      List.getElem_map (aicScore feature target fitFn)
    rw [h3, hselscore, ← hm]
    exact argminIdx_min _ (by rw [hslen]; exact hidx) _
      (List.getElem_mem him)

/-- Witness for C6's theorem at a concrete input. -/
theorem train_polynomial_selects_min_score_witness :
    ∃ run, train_polynomial [1, 2] [1, 2] (fun _ x => x) [1, 2] = .ok run ∧
      run.selectedIdx < 2 ∧
      run.selectedDegree = ([1, 2] : List Nat).getD run.selectedIdx 0 ∧
      (∀ p ∈ run.diagnostics,
        p.2.2 = 2 * (p.1 : ℚ) -
          2 * (-(1 / 2 : ℚ) *
            ((([1, 2].map ((fun _ x => x : Nat → ℚ → ℚ) p.1)).zip
              [1, 2]).map (fun q => (q.1 - q.2) ^ 2)).sum)) ∧
      (∀ p ∈ run.diagnostics,
        aicScore [1, 2] [1, 2] (fun _ x => x) run.selectedDegree ≤
          p.2.2) :=
  train_polynomial_selects_min_score [1, 2] [1, 2] (fun _ x => x) [1, 2]
    (by decide) (by decide) (by decide)

/-- C7 (amended): with empty or length-mismatched feature/target arrays
`train_polynomial` fails with the generic numeric error raised by the
underlying polynomial fit, not with a named `EmptyInput`. -/
theorem train_polynomial_generic_error_on_empty (feature target : List ℚ)
    (fitFn : Nat → ℚ → ℚ) (degrees : List Nat)
    (h : feature = [] ∨ target = [] ∨ feature.length ≠ target.length) :
    train_polynomial feature target fitFn degrees =
      .error .numericError := by
  rw [train_polynomial, if_pos]
  rcases h with h | h | h
  · left
    simp [h]
  · right
    left
    simp [h]
  · right
    right
    left
    exact h

/-- Witness for C7's theorem at a concrete input. -/
theorem train_polynomial_generic_error_on_empty_witness :
    train_polynomial [] [] (fun _ x => x) [1, 2, 3] =
      .error .numericError :=
  train_polynomial_generic_error_on_empty [] [] (fun _ x => x) [1, 2, 3]
    (.inl rfl)

/-- C7 counterexample: on empty inputs the trainer does not fail with the
named `EmptyInput` error. -/
theorem train_polynomial_no_empty_input_error_cex :
    ¬ (train_polynomial [] [] (fun _ x => x) [1, 2, 3] =
      .error .emptyInput) := by decide

/-- C10: among candidate degrees with equal minimal score the earliest in
the `degrees` iterable is selected (np.argmin's first-occurrence tie
break), and the diagnostics table has one row per requested degree in the
given order. -/
theorem train_polynomial_tie_first_occurrence (feature target : List ℚ)
    (fitFn : Nat → ℚ → ℚ) (degrees : List Nat) (hf : feature ≠ [])
    (hlen : feature.length = target.length) (hd : degrees ≠ []) :
    ∃ run, train_polynomial feature target fitFn degrees = .ok run ∧
      run.diagnostics.map Prod.fst = degrees ∧
      run.selectedIdx < degrees.length ∧
      run.selectedDegree = degrees.getD run.selectedIdx 0 ∧
      (∀ j, j < degrees.length →
        aicScore feature target fitFn run.selectedDegree ≤
          aicScore feature target fitFn (degrees.getD j 0)) ∧
      (∀ j, j < run.selectedIdx →
        aicScore feature target fitFn run.selectedDegree <
          aicScore feature target fitFn (degrees.getD j 0)) := by
  have hok := train_polynomial_ok feature target fitFn degrees hf hlen hd
  have hsne : degrees.map (aicScore feature target fitFn) ≠ [] := by
    simpa [List.map_eq_nil_iff] using hd
  have hslen : (degrees.map (aicScore feature target fitFn)).length =
      degrees.length := by simp
  have hidx : argminIdx (degrees.map (aicScore feature target fitFn)) <
      degrees.length := by
    rw [← hslen]
    exact argminIdx_lt_length _ hsne
  have hselscore : aicScore feature target fitFn
      (degrees.getD
        (argminIdx (degrees.map (aicScore feature target fitFn))) 0) =
      (degrees.map (aicScore feature target fitFn)).getD
        (argminIdx (degrees.map (aicScore feature target fitFn))) 0 := by
    rw [List.getD_eq_getElem degrees 0 hidx,
      List.getD_eq_getElem _ 0 (by rw [hslen]; exact hidx),
      List.getElem_map]
  refine ⟨_, hok, ?_, hidx, rfl, ?_, ?_⟩
  · apply List.map_fst_zip
    simp
  · intro j hj
    have hjm : j < (degrees.map (aicScore feature target fitFn)).length := by
      rw [hslen]
      exact hj
    have hscorej : aicScore feature target fitFn (degrees.getD j 0) =
        (degrees.map (aicScore feature target fitFn)).getD j 0 := by
      rw [List.getD_eq_getElem degrees 0 hj,
        List.getD_eq_getElem _ 0 hjm, List.getElem_map]
    rw [hselscore, hscorej,
      List.getD_eq_getElem (degrees.map (aicScore feature target fitFn)) 0 hjm]
    exact argminIdx_min _ (by rw [hslen]; exact hidx) _
      (List.getElem_mem hjm)
  · intro j hj
    have hjd : j < degrees.length := hj.trans hidx
    have hscorej : aicScore feature target fitFn (degrees.getD j 0) =
        (degrees.map (aicScore feature target fitFn)).getD j 0 := by
      rw [List.getD_eq_getElem degrees 0 hjd,
        List.getD_eq_getElem _ 0 (by rw [hslen]; exact hjd),
        List.getElem_map]
    rw [hselscore, hscorej]
    exact argminIdx_first _ (by rw [hslen]; exact hidx) j hj

/-- Witness for C10's theorem at a concrete input. -/
theorem train_polynomial_tie_first_occurrence_witness :
    ∃ run, train_polynomial [1, 2] [1, 2] (fun _ x => x) [2, 3] = .ok run ∧
      run.diagnostics.map Prod.fst = [2, 3] ∧
      run.selectedIdx < 2 ∧
      run.selectedDegree = ([2, 3] : List Nat).getD run.selectedIdx 0 ∧
      (∀ j, j < 2 →
        aicScore [1, 2] [1, 2] (fun _ x => x) run.selectedDegree ≤
          aicScore [1, 2] [1, 2] (fun _ x => x)
            (([2, 3] : List Nat).getD j 0)) ∧
      (∀ j, j < run.selectedIdx →
        aicScore [1, 2] [1, 2] (fun _ x => x) run.selectedDegree <
          aicScore [1, 2] [1, 2] (fun _ x => x)
            (([2, 3] : List Nat).getD j 0)) :=
  train_polynomial_tie_first_occurrence [1, 2] [1, 2] (fun _ x => x) [2, 3]
    (by decide) (by decide) (by decide)

end MxlPy
